import Mathlib

/-!
Shallow embedding of `pkg/configs/configs.go` from the cortex repository.

Go maps are modeled as association lists with unique keys; a value of type
`Option (List (String × String))` distinguishes the Go nil map (`none`) from a
non-nil map (`some l`).  Iterating a map visits the entries in list order (one
admissible Go iteration order).  A Go function returning `(T, error)` is modeled
as `Except String T`: `.ok t` stands for `return t, nil` (the map result is
always a non-nil, initialized map in the source) and `.error e` stands for
`return nil, err` where `e` is the error's message.  The external collaborators
(the rulefmt group parser, the promql expression parser and the legacy statement
parser) are capabilities and appear as function parameters.
-/

set_option autoImplicit false

/-- An ID is the ID of a single user's configuration (Go: `type ID int`). -/
abbrev ID := Int

/-- RuleFormatVersion indicates which Prometheus rule format (v1 vs. v2) to use
in parsing (Go: `type RuleFormatVersion int`). -/
abbrev RuleFormatVersion := Int

/-- RuleFormatV1 is the Prometheus 1.x rule format (first `iota` value, 0). -/
def RuleFormatV1 : RuleFormatVersion := 0

/-- RuleFormatV2 is the Prometheus 2.x rule format (second `iota` value, 1). -/
def RuleFormatV2 : RuleFormatVersion := 1

/-- IsValid returns whether the rules format version is a valid (known) version. -/
def RuleFormatVersion.IsValid (v : RuleFormatVersion) : Bool :=
  if v = RuleFormatV1 then true
  else if v = RuleFormatV2 then true
  else false

/-- MarshalJSON for RuleFormatVersion, at the token level: version 1 serializes
to the token `1`, version 2 to `2`, anything else fails with an error naming the
numeric value (Go: `fmt.Errorf("unknown rule format version %d", v)`). -/
def RuleFormatVersion.MarshalJSON (v : RuleFormatVersion) : Except String String :=
  if v = RuleFormatV1 then .ok "1"
  else if v = RuleFormatV2 then .ok "2"
  else .error ("unknown rule format version " ++ toString v)

/-- UnmarshalJSON for RuleFormatVersion, at the token level: the token `1`
decodes to V1, `2` to V2, any other token fails with an error echoing the
offending input (Go: `fmt.Errorf("unknown rule format version %q", string(data))`;
the JSON string-literal layer is an out-of-scope encoding mechanism, so the
input here is the already-decoded token). -/
def RuleFormatVersion.UnmarshalJSON (s : String) : Except String RuleFormatVersion :=
  if s = "1" then .ok RuleFormatV1
  else if s = "2" then .ok RuleFormatV2
  else .error ("unknown rule format version \"" ++ s ++ "\"")

/-- A Go `map[string]string` value: `none` is the nil map, `some l` a non-nil
map whose entries are the association list `l` (keys unique). -/
abbrev GoStrMap := Option (List (String × String))

/-- The entries a Go `range` visits; a nil map iterates as empty. -/
def goEntries (m : GoStrMap) : List (String × String) := m.getD []

/-- Go `len` of a map; `len(nil) = 0`. -/
def goLen (m : GoStrMap) : Nat := (goEntries m).length

/-- Go map index `l[k]` with ok flag: the entry with key `k`, if present. -/
def goIndex (l : List (String × String)) (k : String) : Option String :=
  match l with
  | [] => none
  | (k', v) :: rest => if k' = k then some v else goIndex rest k

/-- RulesConfig is the rules configuration for a particular organization. -/
structure RulesConfig where
  FormatVersion : RuleFormatVersion
  Files : GoStrMap
deriving Repr, DecidableEq

/-- Equal compares two RulesConfigs for equality (Go: `RulesConfig.Equal`):
format versions must match, lengths must match, and every entry of `c.Files`
must pass the loop body's check (`v2, ok := o.Files[k]; !ok || v1 != v2` fails
exactly when the lookup does not yield `some v1`). -/
def RulesConfig.Equal (c o : RulesConfig) : Bool :=
  if c.FormatVersion ≠ o.FormatVersion then false
  else if goLen o.Files ≠ goLen c.Files then false
  else (goEntries c.Files).all fun kv =>
    goIndex (goEntries o.Files) kv.1 == some kv.2

/-- A Config is a Cortex configuration for a single user. -/
structure Config where
  RulesConfig : RulesConfig
  AlertmanagerConfig : String
deriving Repr, DecidableEq

/-- Go `time.Time`, modeled as an integer timestamp; `0` is the zero time. -/
abbrev GoTime := Int

/-- View is a versioned snapshot: identifier, tenant configuration, deletion
timestamp. -/
structure View where
  ID : ID
  Config : Config
  DeletedAt : GoTime
deriving Repr, DecidableEq

/-- VersionedRulesConfig is a RulesConfig together with a version. -/
structure VersionedRulesConfig where
  ID : ID
  Config : RulesConfig
  DeletedAt : GoTime
deriving Repr, DecidableEq

/-- GetVersionedRulesConfig specializes the view to just the rules config
(Go: returns nil exactly when `v.Config.RulesConfig.Files == nil`). -/
def View.GetVersionedRulesConfig (v : View) : Option VersionedRulesConfig :=
  match v.Config.RulesConfig.Files with
  | none => none
  | some _ => some ⟨v.ID, v.Config.RulesConfig, v.DeletedAt⟩

/-- IsDeleted tells you if the config is deleted (deletion timestamp non-zero). -/
def VersionedRulesConfig.IsDeleted (vr : VersionedRulesConfig) : Bool :=
  !(vr.DeletedAt == 0)

/-- configCompat is the compatibility struct for old JSON config blobs:
flattened rules files, format version and alertmanager config. -/
structure ConfigCompat where
  RulesFiles : GoStrMap
  RuleFormatVersion : RuleFormatVersion
  AlertmanagerConfig : String
deriving Repr, DecidableEq

/-- The wire object for a tenant configuration record: each field may be absent
(`none`), matching a JSON object that omits the key. -/
structure ConfigJSON where
  rules_files : GoStrMap
  rule_format_version : Option String
  alertmanager_config : Option String
deriving Repr, DecidableEq

/-- Models `encoding/json` decoding of the wire object into `configCompat`: an
absent field keeps the Go zero value (nil map, version 0, empty string); a
present `rule_format_version` token is decoded with
`RuleFormatVersion.UnmarshalJSON`. -/
def unmarshalConfigCompat (j : ConfigJSON) : Except String ConfigCompat :=
  match j.rule_format_version with
  | none => .ok ⟨j.rules_files, 0, j.alertmanager_config.getD ""⟩
  | some tok =>
    match RuleFormatVersion.UnmarshalJSON tok with
    | .error e => .error e
    | .ok v => .ok ⟨j.rules_files, v, j.alertmanager_config.getD ""⟩

/-- UnmarshalJSON for Config (Go: `Config.UnmarshalJSON`): decode the compat
shape, then rebuild the nested Config from it. -/
def Config.UnmarshalJSON (j : ConfigJSON) : Except String Config :=
  match unmarshalConfigCompat j with
  | .error e => .error e
  | .ok compat => .ok ⟨⟨compat.RuleFormatVersion, compat.RulesFiles⟩, compat.AlertmanagerConfig⟩

/-- A parsed promql expression, kept opaque (output of the out-of-scope
promql.ParseExpr capability, identified by its text). -/
abbrev PromExpr := String

/-- A label or annotation set (labels.Labels as fed from a map). -/
abbrev LabelSet := List (String × String)

/-- A rule node of the v2 rule file format: the fields of `rulefmt.Rule` that
parseV2 reads. -/
structure RuleNode where
  Record : String
  Alert : String
  Expr : String
  For : Int
  Labels : LabelSet
  Annotations : LabelSet
deriving Repr, DecidableEq

/-- A rule group of the v2 rule file format (`rulefmt.RuleGroup`: name and
rules; parseV2 reads nothing else). -/
structure RuleGroup where
  Name : String
  Rules : List RuleNode
deriving Repr, DecidableEq

/-- The uniform rule representation (`rules.Rule` as built by NewAlertingRule /
NewRecordingRule; the constant restoration flag and the logger argument carry
no parse information and are omitted). -/
inductive Rule where
  | alerting (name : String) (expr : PromExpr) (hold : Int) (labels : LabelSet)
      (anns : LabelSet)
  | recording (name : String) (expr : PromExpr) (labels : LabelSet)
deriving Repr, DecidableEq

/-- A legacy (v1) statement as produced by the out-of-scope
legacy_promql.ParseStmts capability: an alert statement, a record statement, or
any other statement kind (the defensive default case of parseV1). The
`exprText` field is the canonical textual form `r.Expr.String()`. -/
inductive Stmt where
  | alertStmt (name : String) (exprText : String) (duration : Int)
      (labels : LabelSet) (anns : LabelSet)
  | recordStmt (name : String) (exprText : String) (labels : LabelSet)
  | otherStmt
deriving Repr, DecidableEq

/-- Capability: the v2 group-grammar parser (`rulefmt.Parse`): returns parsed
groups together with a list of errors; a non-empty error list means failure. -/
abbrev GroupParseFn := String → List RuleGroup × List String

/-- Capability: the current expression language (`promql.ParseExpr`). -/
abbrev ExprParseFn := String → Except String PromExpr

/-- Capability: the legacy statement grammar (`legacy_promql.ParseStmts`). -/
abbrev StmtParseFn := String → Except String (List Stmt)

/-- The aggregate parse result `map[string][]rules.Rule`, as an association
list. -/
abbrev RuleMap := List (String × List Rule)

/-- Go map assignment `m[k] = v`: replaces the binding if the key is present,
otherwise adds it. -/
def mapSet : RuleMap → String → List Rule → RuleMap
  | [], k, v => [(k, v)]
  | (k', v') :: rest, k, v =>
    if k' = k then (k, v) :: rest else (k', v') :: mapSet rest k v

/-- The composite group key `rg.Name + ";" + fn` used by parseV2. -/
def groupKey (name fn : String) : String := name ++ ";" ++ fn

/-- One iteration of parseV2's inner rule loop: parse the rule's expression
(failure propagates the promql error unchanged), then build an alerting rule if
`rl.Alert != ""` and a recording rule otherwise. -/
def convRuleV2 (ep : ExprParseFn) (rl : RuleNode) : Except String Rule :=
  match ep rl.Expr with
  | .error e => .error e
  | .ok expr =>
    if rl.Alert ≠ "" then
      .ok (.alerting rl.Alert expr rl.For rl.Labels rl.Annotations)
    else
      .ok (.recording rl.Record expr rl.Labels)

/-- parseV2's rule loop over one group, in source order, aborting on the first
expression failure. -/
def convRulesV2 (ep : ExprParseFn) : List RuleNode → Except String (List Rule)
  | [] => .ok []
  | rl :: rest =>
    match convRuleV2 ep rl with
    | .error e => .error e
    | .ok r =>
      match convRulesV2 ep rest with
      | .error e => .error e
      | .ok rs => .ok (r :: rs)

/-- parseV2's group loop over one file: convert each group's rules, then store
them under the composite key `groupKey rg.Name fn` in the accumulated map. -/
def addGroupsV2 (ep : ExprParseFn) (fn : String) :
    List RuleGroup → RuleMap → Except String RuleMap
  | [], acc => .ok acc
  | rg :: rest, acc =>
    match convRulesV2 ep rg.Rules with
    | .error e => .error e
    | .ok rls => addGroupsV2 ep fn rest (mapSet acc (groupKey rg.Name fn) rls)

/-- parseV2's file loop: run the group-grammar parser on each file's content;
a non-empty error list aborts with `error parsing <fn>: <errs[0]>`. -/
def parseFilesV2 (gp : GroupParseFn) (ep : ExprParseFn) :
    List (String × String) → RuleMap → Except String RuleMap
  | [], acc => .ok acc
  | (fn, content) :: rest, acc =>
    match (gp content).2 with
    | e :: _ => .error ("error parsing " ++ fn ++ ": " ++ e)
    | [] =>
      match addGroupsV2 ep fn (gp content).1 acc with
      | .error e => .error e
      | .ok acc2 => parseFilesV2 gp ep rest acc2

/-- parseV2 parses and validates the rule files according to the Prometheus 2.x
rule format (Go: `RulesConfig.parseV2`, with the rulefmt and promql parsers as
capability parameters). -/
def RulesConfig.parseV2 (gp : GroupParseFn) (ep : ExprParseFn) (c : RulesConfig) :
    Except String RuleMap :=
  parseFilesV2 gp ep (goEntries c.Files) []

/-- parseV1's statement loop over one file, in source order: re-parse each
statement's expression text with the current expression parser (failure
propagates the promql error unchanged), classify alert/record statements, and
fail on any other statement kind. -/
def convStmtsV1 (ep : ExprParseFn) : List Stmt → Except String (List Rule)
  | [] => .ok []
  | s :: rest =>
    match s with
    | .alertStmt n et d ls as =>
      match ep et with
      | .error e => .error e
      | .ok expr =>
        match convStmtsV1 ep rest with
        | .error e => .error e
        | .ok rs => .ok (.alerting n expr d ls as :: rs)
    | .recordStmt n et ls =>
      match ep et with
      | .error e => .error e
      | .ok expr =>
        match convStmtsV1 ep rest with
        | .error e => .error e
        | .ok rs => .ok (.recording n expr ls :: rs)
    | .otherStmt => .error "ruler.GetRules: unknown statement type"

/-- parseV1's file loop: parse each file with the legacy statement grammar
(failure aborts with `error parsing <fn>: <err>`), convert the statements, and
store the result under the file name. -/
def parseFilesV1 (sp : StmtParseFn) (ep : ExprParseFn) :
    List (String × String) → RuleMap → Except String RuleMap
  | [], acc => .ok acc
  | (fn, content) :: rest, acc =>
    match sp content with
    | .error e => .error ("error parsing " ++ fn ++ ": " ++ e)
    | .ok stmts =>
      match convStmtsV1 ep stmts with
      | .error e => .error e
      | .ok ra => parseFilesV1 sp ep rest (mapSet acc fn ra)

/-- parseV1 parses and validates the rule files according to the Prometheus 1.x
rule format (Go: `RulesConfig.parseV1`, with the legacy statement and promql
parsers as capability parameters). -/
def RulesConfig.parseV1 (sp : StmtParseFn) (ep : ExprParseFn) (c : RulesConfig) :
    Except String RuleMap :=
  parseFilesV1 sp ep (goEntries c.Files) []

/-- Parse parses and validates the rule files according to the configuration's
rule format version (Go: `RulesConfig.Parse`): dispatch to the v1 or v2 adapter,
or fail with `unknown rule format version <v>` carrying the offending value. -/
def RulesConfig.Parse (gp : GroupParseFn) (ep : ExprParseFn) (sp : StmtParseFn)
    (c : RulesConfig) : Except String RuleMap :=
  if c.FormatVersion = RuleFormatV1 then RulesConfig.parseV1 sp ep c
  else if c.FormatVersion = RuleFormatV2 then RulesConfig.parseV2 gp ep c
  else .error ("unknown rule format version " ++ toString c.FormatVersion)

/-- A trivial group parser instance used to exercise theorems at concrete
inputs: every content parses to no groups and no errors. -/
def gpEmpty : GroupParseFn := fun _ => ([], [])

/-- A trivial expression parser instance: every text parses to itself. -/
def epOk : ExprParseFn := fun s => .ok s

/-- A trivial legacy statement parser instance: every content parses to no
statements. -/
def spEmpty : StmtParseFn := fun _ => .ok []

/-- C3: decoding then encoding a rule-format-version token is the identity on
the tokens `1` and `2`; decoding any other token fails with an error echoing
the offending input, and encoding any internal value other than the two known
enumeration values fails with an error naming the numeric value. -/
theorem c3_format_version_round_trip :
    (RuleFormatVersion.UnmarshalJSON "1" = .ok RuleFormatV1 ∧
      RuleFormatVersion.MarshalJSON RuleFormatV1 = .ok "1") ∧
    (RuleFormatVersion.UnmarshalJSON "2" = .ok RuleFormatV2 ∧
      RuleFormatVersion.MarshalJSON RuleFormatV2 = .ok "2") ∧
    (∀ s : String, s ≠ "1" → s ≠ "2" →
      RuleFormatVersion.UnmarshalJSON s =
        .error ("unknown rule format version \"" ++ s ++ "\"")) ∧
    (∀ v : RuleFormatVersion, v ≠ RuleFormatV1 → v ≠ RuleFormatV2 →
      RuleFormatVersion.MarshalJSON v =
        .error ("unknown rule format version " ++ toString v)) := by
  refine ⟨⟨rfl, rfl⟩, ⟨rfl, rfl⟩, ?_, ?_⟩
  · intro s h1 h2
    simp [RuleFormatVersion.UnmarshalJSON, h1, h2]
  · intro v h1 h2
    simp [RuleFormatVersion.MarshalJSON, h1, h2]

/-- Witness for C3: the hypothesis-bearing conjuncts at the tokens `3` and the
internal value 7. -/
theorem c3_format_version_round_trip_witness :
    RuleFormatVersion.UnmarshalJSON "3" =
      .error ("unknown rule format version \"" ++ "3" ++ "\"") ∧
    RuleFormatVersion.MarshalJSON 7 =
      .error ("unknown rule format version " ++ toString (7 : Int)) :=
  ⟨c3_format_version_round_trip.2.2.1 "3" (by decide) (by decide),
   c3_format_version_round_trip.2.2.2 7 (by decide) (by decide)⟩

/-- C4: decoding a tenant configuration record that omits the
rule_format_version field succeeds and yields format version V1 (the zero value
of the enumeration). -/
theorem c4_absent_version_defaults_to_v1 :
    ∀ j : ConfigJSON, j.rule_format_version = none →
      Config.UnmarshalJSON j =
        .ok ⟨⟨RuleFormatV1, j.rules_files⟩, j.alertmanager_config.getD ""⟩ := by
  intro j h
  simp [Config.UnmarshalJSON, unmarshalConfigCompat, h, RuleFormatV1]

/-- Witness for C4: the record with every field absent decodes to a V1
configuration. -/
theorem c4_absent_version_defaults_to_v1_witness :
    Config.UnmarshalJSON ⟨none, none, none⟩ = .ok ⟨⟨RuleFormatV1, none⟩, ""⟩ :=
  c4_absent_version_defaults_to_v1 ⟨none, none, none⟩ rfl

/-- C7: parsing a RulesConfig whose format version is neither V1 nor V2 fails
with an unsupported-format-version error carrying the offending value, and
returns no partial result (in the embedding, an `error` result stands for Go's
`return nil, err`). -/
theorem c7_unknown_format_version :
    ∀ (gp : GroupParseFn) (ep : ExprParseFn) (sp : StmtParseFn) (c : RulesConfig),
      c.FormatVersion ≠ RuleFormatV1 → c.FormatVersion ≠ RuleFormatV2 →
      RulesConfig.Parse gp ep sp c =
        .error ("unknown rule format version " ++ toString c.FormatVersion) := by
  intro gp ep sp c h1 h2
  simp [RulesConfig.Parse, h1, h2]

/-- Witness for C7: version 5 is rejected by Parse. -/
theorem c7_unknown_format_version_witness :
    RulesConfig.Parse gpEmpty epOk spEmpty ⟨5, none⟩ =
      .error ("unknown rule format version " ++ toString (5 : Int)) :=
  c7_unknown_format_version gpEmpty epOk spEmpty ⟨5, none⟩ (by decide) (by decide)

/-- C8: projecting a View to its rules-only view yields `none` exactly when the
rules configuration's file mapping is nil; otherwise (also for an empty-but-set
mapping) it yields the view's ID, its RulesConfig and its deletion timestamp. -/
theorem c8_get_versioned_rules_config :
    ∀ v : View,
      (View.GetVersionedRulesConfig v = none ↔ v.Config.RulesConfig.Files = none) ∧
      (∀ l, v.Config.RulesConfig.Files = some l →
        View.GetVersionedRulesConfig v =
          some ⟨v.ID, v.Config.RulesConfig, v.DeletedAt⟩) := by
  intro v
  constructor
  · cases h : v.Config.RulesConfig.Files <;>
      simp [View.GetVersionedRulesConfig, h]
  · intro l h
    simp [View.GetVersionedRulesConfig, h]

/-- Witness for C8: a nil file mapping projects to no view; an empty-but-set
file mapping projects to a present view. -/
theorem c8_get_versioned_rules_config_witness :
    View.GetVersionedRulesConfig ⟨1, ⟨⟨0, none⟩, ""⟩, 0⟩ = none ∧
    View.GetVersionedRulesConfig ⟨2, ⟨⟨0, some []⟩, ""⟩, 3⟩ =
      some ⟨2, ⟨0, some []⟩, 3⟩ :=
  ⟨(c8_get_versioned_rules_config ⟨1, ⟨⟨0, none⟩, ""⟩, 0⟩).1.mpr rfl,
   (c8_get_versioned_rules_config ⟨2, ⟨⟨0, some []⟩, ""⟩, 3⟩).2 [] rfl⟩

/-- C9: Equal does not distinguish a nil file mapping from a set-but-empty one
(either way around), even though GetVersionedRulesConfig distinguishes exactly
these two cases. -/
theorem c9_equal_conflates_nil_and_empty :
    ∀ (fv : RuleFormatVersion) (i : ID) (am : String) (da : GoTime),
      RulesConfig.Equal ⟨fv, none⟩ ⟨fv, some []⟩ = true ∧
      RulesConfig.Equal ⟨fv, some []⟩ ⟨fv, none⟩ = true ∧
      View.GetVersionedRulesConfig ⟨i, ⟨⟨fv, none⟩, am⟩, da⟩ = none ∧
      (View.GetVersionedRulesConfig ⟨i, ⟨⟨fv, some []⟩, am⟩, da⟩).isSome = true := by
  intro fv i am da
  refine ⟨?_, ?_, rfl, rfl⟩ <;>
    simp [RulesConfig.Equal, goLen, goEntries]

/-- C10: parsing a RulesConfig with a known format version whose file mapping
is empty or unset succeeds with an empty (but present: Go returns an
initialized, non-nil map) result, for both format adapters. -/
theorem c10_empty_files_parse_ok :
    ∀ (gp : GroupParseFn) (ep : ExprParseFn) (sp : StmtParseFn) (c : RulesConfig),
      (c.FormatVersion = RuleFormatV1 ∨ c.FormatVersion = RuleFormatV2) →
      (c.Files = none ∨ c.Files = some []) →
      RulesConfig.Parse gp ep sp c = .ok [] := by
  intro gp ep sp c hv hf
  have hent : goEntries c.Files = [] := by
    rcases hf with h | h <;> simp [goEntries, h]
  rcases hv with h | h <;>
    simp [RulesConfig.Parse, h, RuleFormatV1, RuleFormatV2,
      RulesConfig.parseV1, RulesConfig.parseV2, hent, parseFilesV1, parseFilesV2]

/-- Witness for C10: a V2 configuration with a set-but-empty mapping, and a V1
configuration with a nil mapping, both parse to the empty result. -/
theorem c10_empty_files_parse_ok_witness :
    RulesConfig.Parse gpEmpty epOk spEmpty ⟨RuleFormatV2, some []⟩ = .ok [] ∧
    RulesConfig.Parse gpEmpty epOk spEmpty ⟨RuleFormatV1, none⟩ = .ok [] :=
  ⟨c10_empty_files_parse_ok gpEmpty epOk spEmpty ⟨RuleFormatV2, some []⟩
      (Or.inr rfl) (Or.inr rfl),
   c10_empty_files_parse_ok gpEmpty epOk spEmpty ⟨RuleFormatV1, none⟩
      (Or.inl rfl) (Or.inl rfl)⟩

/-- The Go-map invariant on an association list: keys are pairwise distinct. -/
abbrev keysNodup (l : List (String × String)) : Prop := (l.map Prod.fst).Nodup

/-- The spec's notion of mapping equality: the two mappings contain exactly the
same (name, content) pairs, regardless of order. -/
def samePairs (l₁ l₂ : List (String × String)) : Prop :=
  ∀ p : String × String, p ∈ l₁ ↔ p ∈ l₂

theorem goIndex_some_mem {l : List (String × String)} {k v : String}
    (h : goIndex l k = some v) : (k, v) ∈ l := by
  induction l with
  | nil => simp [goIndex] at h
  | cons kv rest ih =>
    obtain ⟨k', v'⟩ := kv
    by_cases hk : k' = k
    · subst hk
      simp [goIndex] at h
      subst h
      exact List.mem_cons_self _ _
    · simp only [goIndex, if_neg hk] at h
      exact List.mem_cons_of_mem _ (ih h)

theorem mem_goIndex_of_nodup {l : List (String × String)} {k v : String}
    (hn : keysNodup l) (h : (k, v) ∈ l) : goIndex l k = some v := by
  induction l with
  | nil => simp at h
  | cons kv rest ih =>
    obtain ⟨k', v'⟩ := kv
    have hn' : k' ∉ rest.map Prod.fst ∧ (rest.map Prod.fst).Nodup := by
      simpa [keysNodup] using hn
    rcases List.mem_cons.mp h with heq | hmem
    · rw [Prod.mk.injEq] at heq
      obtain ⟨rfl, rfl⟩ := heq
      simp [goIndex]
    · have hk : k' ≠ k := by
        rintro rfl
        exact hn'.1 (List.mem_map.mpr ⟨(k', v), hmem, rfl⟩)
      simp only [goIndex, if_neg hk]
      exact ih hn'.2 hmem

/-- C1: for Go-map inputs (unique keys), Equal returns true iff the format
versions are equal and the file mappings contain exactly the same
(name, content) pairs; order is irrelevant, and Equal is a total Boolean
function, so every mismatch yields false rather than an error. -/
theorem c1_equal_iff_same_pairs :
    ∀ a b : RulesConfig,
      keysNodup (goEntries a.Files) → keysNodup (goEntries b.Files) →
      (RulesConfig.Equal a b = true ↔
        a.FormatVersion = b.FormatVersion ∧
        samePairs (goEntries a.Files) (goEntries b.Files)) := by
  intro a b hna hnb
  have hstep : RulesConfig.Equal a b = true ↔
      a.FormatVersion = b.FormatVersion ∧
      goLen b.Files = goLen a.Files ∧
      ∀ p ∈ goEntries a.Files, goIndex (goEntries b.Files) p.1 = some p.2 := by
    by_cases hv : a.FormatVersion = b.FormatVersion <;>
      by_cases hl : goLen b.Files = goLen a.Files <;>
        simp [RulesConfig.Equal, hv, hl, List.all_eq_true]
  rw [hstep]
  constructor
  · rintro ⟨hv, hl, hall⟩
    refine ⟨hv, ?_⟩
    have hsub : goEntries a.Files ⊆ goEntries b.Files := by
      intro p hp
      simpa using goIndex_some_mem (hall p hp)
    have hperm : List.Perm (goEntries a.Files) (goEntries b.Files) :=
      (List.subperm_of_subset (List.Nodup.of_map _ hna) hsub).perm_of_length_le
        (by simpa [goLen] using hl.le)
    exact fun p => hperm.mem_iff
  · rintro ⟨hv, hsp⟩
    have hperm : List.Perm (goEntries a.Files) (goEntries b.Files) :=
      (List.perm_ext_iff_of_nodup (List.Nodup.of_map _ hna)
        (List.Nodup.of_map _ hnb)).mpr hsp
    refine ⟨hv, by simpa [goLen] using hperm.length_eq.symm, ?_⟩
    intro p hp
    exact mem_goIndex_of_nodup hnb ((hsp p).mp hp)

/-- Witness for C1: two concrete two-file configurations whose mappings hold
the same pairs in opposite orders. -/
theorem c1_equal_iff_same_pairs_witness :
    RulesConfig.Equal ⟨1, some [("a", "x"), ("b", "y")]⟩
        ⟨1, some [("b", "y"), ("a", "x")]⟩ = true ↔
      (1 : RuleFormatVersion) = 1 ∧
      samePairs [("a", "x"), ("b", "y")] [("b", "y"), ("a", "x")] :=
  c1_equal_iff_same_pairs ⟨1, some [("a", "x"), ("b", "y")]⟩
    ⟨1, some [("b", "y"), ("a", "x")]⟩ (by decide) (by decide)

/-- Whether an Except value is a success. -/
def exceptIsOk {ε α : Type} : Except ε α → Bool
  | .ok _ => true
  | .error _ => false

theorem exceptIsOk_ok {ε α : Type} {x : Except ε α} (h : exceptIsOk x = true) :
    ∃ a, x = .ok a := by
  cases x with
  | ok a => exact ⟨a, rfl⟩
  | error e => simp [exceptIsOk] at h

theorem convRulesV2_ok (ep : ExprParseFn) :
    ∀ rls : List RuleNode,
      (∀ rl ∈ rls, exceptIsOk (ep rl.Expr) = true) →
      ∃ out, convRulesV2 ep rls = .ok out := by
  intro rls
  induction rls with
  | nil => exact fun _ => ⟨[], rfl⟩
  | cons rl rest ih =>
    intro h
    obtain ⟨x, hx⟩ := exceptIsOk_ok (h rl (List.mem_cons_self _ _))
    have hone : ∃ r, convRuleV2 ep rl = .ok r := by
      by_cases ha : rl.Alert ≠ ""
      · exact ⟨Rule.alerting rl.Alert x rl.For rl.Labels rl.Annotations,
          by simp [convRuleV2, hx, ha]⟩
      · exact ⟨Rule.recording rl.Record x rl.Labels,
          by simp [convRuleV2, hx, ha]⟩
    obtain ⟨r, hr⟩ := hone
    obtain ⟨rs, hrs⟩ := ih fun a hm => h a (List.mem_cons_of_mem _ hm)
    exact ⟨r :: rs, by simp [convRulesV2, hr, hrs]⟩

theorem addGroupsV2_ok (ep : ExprParseFn) (fn : String) :
    ∀ (gs : List RuleGroup) (acc : RuleMap),
      (∀ g ∈ gs, ∀ rl ∈ g.Rules, exceptIsOk (ep rl.Expr) = true) →
      ∃ acc2, addGroupsV2 ep fn gs acc = .ok acc2 := by
  intro gs
  induction gs with
  | nil => exact fun acc _ => ⟨acc, rfl⟩
  | cons g rest ih =>
    intro acc h
    obtain ⟨out, hout⟩ := convRulesV2_ok ep g.Rules (h g (List.mem_cons_self _ _))
    obtain ⟨acc2, ha⟩ :=
      ih (mapSet acc (groupKey g.Name fn) out)
        fun a hm => h a (List.mem_cons_of_mem _ hm)
    exact ⟨acc2, by simp [addGroupsV2, hout, ha]⟩

theorem parseFilesV2_error_of_groupfail (gp : GroupParseFn) (ep : ExprParseFn) :
    ∀ (fs : List (String × String)) (acc : RuleMap),
      (∃ fc ∈ fs, (gp fc.2).2 ≠ []) →
      ∃ e, parseFilesV2 gp ep fs acc = .error e := by
  intro fs
  induction fs with
  | nil =>
    rintro acc ⟨fc, h, _⟩
    simp at h
  | cons f rest ih =>
    rintro acc ⟨fc, hmem, hfail⟩
    obtain ⟨fn, content⟩ := f
    cases hg : (gp content).2 with
    | cons e es =>
      exact ⟨"error parsing " ++ fn ++ ": " ++ e, by simp [parseFilesV2, hg]⟩
    | nil =>
      have hfc : fc ∈ rest := by
        rcases List.mem_cons.mp hmem with rfl | h
        · exact absurd hg hfail
        · exact h
      cases ha : addGroupsV2 ep fn (gp content).1 acc with
      | error e => exact ⟨e, by simp [parseFilesV2, hg, ha]⟩
      | ok acc2 =>
        obtain ⟨e, he⟩ := ih acc2 ⟨fc, hfc, hfail⟩
        exact ⟨e, by simp [parseFilesV2, hg, ha, he]⟩

theorem parseFilesV2_first_group_error (gp : GroupParseFn) (ep : ExprParseFn) :
    ∀ (fs : List (String × String)) (acc : RuleMap),
      (∀ fc ∈ fs, (gp fc.2).2 = [] → ∀ g ∈ (gp fc.2).1, ∀ rl ∈ g.Rules,
        exceptIsOk (ep rl.Expr) = true) →
      (∃ fc ∈ fs, (gp fc.2).2 ≠ []) →
      ∃ fn content e es, (fn, content) ∈ fs ∧ (gp content).2 = e :: es ∧
        parseFilesV2 gp ep fs acc =
          .error ("error parsing " ++ fn ++ ": " ++ e) := by
  intro fs
  induction fs with
  | nil =>
    rintro acc _ ⟨fc, h, _⟩
    simp at h
  | cons f rest ih =>
    rintro acc hok ⟨fc, hmem, hfail⟩
    obtain ⟨fn, content⟩ := f
    cases hg : (gp content).2 with
    | cons e es =>
      exact ⟨fn, content, e, es, List.mem_cons_self _ _, hg,
        by simp [parseFilesV2, hg]⟩
    | nil =>
      have hfc : fc ∈ rest := by
        rcases List.mem_cons.mp hmem with rfl | h
        · exact absurd hg hfail
        · exact h
      obtain ⟨acc2, ha⟩ :=
        addGroupsV2_ok ep fn (gp content).1 acc
          (hok (fn, content) (List.mem_cons_self _ _) hg)
      obtain ⟨fn', content', e, es, hm, hge, hres⟩ :=
        ih acc2 (fun a hm hz => hok a (List.mem_cons_of_mem _ hm) hz)
          ⟨fc, hfc, hfail⟩
      exact ⟨fn', content', e, es, List.mem_cons_of_mem _ hm, hge,
        by simp [parseFilesV2, hg, ha, hres]⟩

/-- C2 (amended): if some file of a V2 configuration fails the group-grammar
parser, Parse always returns an error and no rules at all (in the embedding an
`error` result stands for Go's `return nil, err`); and provided no
expression-parse failure occurs in any group-parseable file, the error names a
group-failing file and that file's first reported syntax error. -/
theorem c2_v2_group_error_atomicity :
    ∀ (gp : GroupParseFn) (ep : ExprParseFn) (sp : StmtParseFn) (c : RulesConfig),
      c.FormatVersion = RuleFormatV2 →
      (∃ fc ∈ goEntries c.Files, (gp fc.2).2 ≠ []) →
      (∃ e, RulesConfig.Parse gp ep sp c = .error e) ∧
      ((∀ fc ∈ goEntries c.Files, (gp fc.2).2 = [] →
          ∀ g ∈ (gp fc.2).1, ∀ rl ∈ g.Rules, exceptIsOk (ep rl.Expr) = true) →
        ∃ fn content e es, (fn, content) ∈ goEntries c.Files ∧
          (gp content).2 = e :: es ∧
          RulesConfig.Parse gp ep sp c =
            .error ("error parsing " ++ fn ++ ": " ++ e)) := by
  intro gp ep sp c hv hfail
  have hdisp : RulesConfig.Parse gp ep sp c =
      parseFilesV2 gp ep (goEntries c.Files) [] := by
    simp [RulesConfig.Parse, hv, RuleFormatV1, RuleFormatV2, RulesConfig.parseV2]
  constructor
  · rw [hdisp]
    exact parseFilesV2_error_of_groupfail gp ep _ [] hfail
  · intro hok
    rw [hdisp]
    exact parseFilesV2_first_group_error gp ep _ [] hok hfail

/-- Group parser instance for the C2 witness: the content `bad` fails with one
syntax error, everything else parses to no groups. -/
def gpC2 : GroupParseFn := fun content =>
  if content = "bad" then ([], ["boom"]) else ([], [])

/-- Witness for C2: a two-file configuration whose second file fails the group
parser; Parse fails naming that file and its first error. -/
theorem c2_v2_group_error_atomicity_witness :
    (∃ e, RulesConfig.Parse gpC2 epOk spEmpty
      ⟨RuleFormatV2, some [("good", "x"), ("b", "bad")]⟩ = .error e) ∧
    (∃ fn content e es,
      (fn, content) ∈ goEntries (some [("good", "x"), ("b", "bad")]) ∧
      (gpC2 content).2 = e :: es ∧
      RulesConfig.Parse gpC2 epOk spEmpty
        ⟨RuleFormatV2, some [("good", "x"), ("b", "bad")]⟩ =
          .error ("error parsing " ++ fn ++ ": " ++ e)) := by
  have h := c2_v2_group_error_atomicity gpC2 epOk spEmpty
    ⟨RuleFormatV2, some [("good", "x"), ("b", "bad")]⟩ rfl
    ⟨("b", "bad"), by decide, by decide⟩
  exact ⟨h.1, h.2 (by decide)⟩

/-- Group parser instance for the C2 counterexample: `f1` parses to one group
whose rule has an unparseable expression; `f2` fails the group grammar. -/
def gpC2x : GroupParseFn := fun content =>
  if content = "f1" then ([⟨"g", [⟨"r", "", "badexpr", 0, [], []⟩]⟩], [])
  else if content = "f2" then ([], ["boom"])
  else ([], [])

/-- Expression parser instance for the C2 counterexample: `badexpr` fails. -/
def epC2x : ExprParseFn := fun s =>
  if s = "badexpr" then .error "exprboom" else .ok s

/-- Counterexample for C2 as stated: the configuration has a file (`b`,
content `f2`) that fails the group-grammar parser, yet Parse returns the
unwrapped expression error of the earlier file `a`, which identifies neither
the failing file's name nor its first reported syntax error. -/
theorem c2_counterexample :
    ("b", "f2") ∈ goEntries (some [("a", "f1"), ("b", "f2")]) ∧
    (gpC2x "f2").2 = ["boom"] ∧
    RulesConfig.Parse gpC2x epC2x spEmpty
      ⟨RuleFormatV2, some [("a", "f1"), ("b", "f2")]⟩ = .error "exprboom" ∧
    ("exprboom" : String) ≠ "error parsing b: boom" := by
  refine ⟨by decide, by decide, ?_, by decide⟩
  rfl

theorem append_cons_inj {c : Char} :
    ∀ {l₁ l₂ r₁ r₂ : List Char}, c ∉ l₁ → c ∉ l₂ →
      l₁ ++ c :: r₁ = l₂ ++ c :: r₂ → l₁ = l₂ ∧ r₁ = r₂ := by
  intro l₁
  induction l₁ with
  | nil =>
    intro l₂ r₁ r₂ _ h₂ h
    cases l₂ with
    | nil => simpa using h
    | cons y l₂' =>
      simp only [List.nil_append, List.cons_append, List.cons.injEq] at h
      exact absurd (h.1 ▸ List.mem_cons_self y l₂') h₂
  | cons x l₁' ih =>
    intro l₂ r₁ r₂ h₁ h₂ h
    cases l₂ with
    | nil =>
      simp only [List.nil_append, List.cons_append, List.cons.injEq] at h
      exact absurd (h.1 ▸ List.mem_cons_self x l₁') h₁
    | cons y l₂' =>
      simp only [List.cons_append, List.cons.injEq] at h
      obtain ⟨rfl, h'⟩ := h
      have hrec := ih (fun hm => h₁ (List.mem_cons_of_mem _ hm))
        (fun hm => h₂ (List.mem_cons_of_mem _ hm)) h'
      exact ⟨by rw [hrec.1], hrec.2⟩

theorem groupKey_inj {g₁ fn₁ g₂ fn₂ : String}
    (h₁ : ';' ∉ g₁.data) (h₂ : ';' ∉ g₂.data)
    (h : groupKey g₁ fn₁ = groupKey g₂ fn₂) : g₁ = g₂ ∧ fn₁ = fn₂ := by
  have hd : g₁.data ++ ';' :: fn₁.data = g₂.data ++ ';' :: fn₂.data := by
    have hc := congrArg String.data h
    simpa [groupKey, String.data_append] using hc
  obtain ⟨ha, hb⟩ := append_cons_inj h₁ h₂ hd
  exact ⟨String.ext ha, String.ext hb⟩

theorem mapSet_keys {k' : String} :
    ∀ (m : RuleMap) (k : String) (v : List Rule),
      k' ∈ (mapSet m k v).map Prod.fst → k' = k ∨ k' ∈ m.map Prod.fst := by
  intro m
  induction m with
  | nil =>
    intro k v h
    simp [mapSet] at h
    exact Or.inl h
  | cons kv rest ih =>
    intro k v h
    obtain ⟨ka, va⟩ := kv
    simp only [mapSet] at h
    split at h
    · rw [List.map_cons] at h
      rcases List.mem_cons.mp h with h | h
      · exact Or.inl h
      · exact Or.inr (by rw [List.map_cons]; exact List.mem_cons_of_mem _ h)
    · rw [List.map_cons] at h
      rcases List.mem_cons.mp h with h | h
      · exact Or.inr (by rw [List.map_cons]; exact h ▸ List.mem_cons_self _ _)
      · rcases ih k v h with h' | h'
        · exact Or.inl h'
        · exact Or.inr (by rw [List.map_cons]; exact List.mem_cons_of_mem _ h')

theorem addGroupsV2_keys (ep : ExprParseFn) (fn : String) :
    ∀ (gs : List RuleGroup) (acc m : RuleMap),
      addGroupsV2 ep fn gs acc = .ok m →
      ∀ k ∈ m.map Prod.fst,
        k ∈ acc.map Prod.fst ∨ ∃ g ∈ gs, k = groupKey g.Name fn := by
  intro gs
  induction gs with
  | nil =>
    intro acc m h k hk
    simp only [addGroupsV2, Except.ok.injEq] at h
    subst h
    exact Or.inl hk
  | cons g rest ih =>
    intro acc m h k hk
    simp only [addGroupsV2] at h
    cases hc : convRulesV2 ep g.Rules with
    | error e => rw [hc] at h; simp at h
    | ok rls =>
      rw [hc] at h
      rcases ih _ m h k hk with hin | ⟨g', hg', hkey⟩
      · rcases mapSet_keys acc (groupKey g.Name fn) rls hin with hkey | hacc
        · exact Or.inr ⟨g, List.mem_cons_self _ _, hkey⟩
        · exact Or.inl hacc
      · exact Or.inr ⟨g', List.mem_cons_of_mem _ hg', hkey⟩

theorem parseFilesV2_keys (gp : GroupParseFn) (ep : ExprParseFn) :
    ∀ (fs : List (String × String)) (acc m : RuleMap),
      parseFilesV2 gp ep fs acc = .ok m →
      ∀ k ∈ m.map Prod.fst,
        k ∈ acc.map Prod.fst ∨
        ∃ fn content, (fn, content) ∈ fs ∧ (gp content).2 = [] ∧
          ∃ g ∈ (gp content).1, k = groupKey g.Name fn := by
  intro fs
  induction fs with
  | nil =>
    intro acc m h k hk
    simp only [parseFilesV2, Except.ok.injEq] at h
    subst h
    exact Or.inl hk
  | cons f rest ih =>
    intro acc m h k hk
    obtain ⟨fn, content⟩ := f
    simp only [parseFilesV2] at h
    cases hg : (gp content).2 with
    | cons e es => rw [hg] at h; simp at h
    | nil =>
      rw [hg] at h
      cases ha : addGroupsV2 ep fn (gp content).1 acc with
      | error e => rw [ha] at h; simp at h
      | ok acc2 =>
        rw [ha] at h
        simp only at h
        rcases ih acc2 m h k hk with hin | ⟨fn', content', hm, hz, g, hgm, hkey⟩
        · rcases addGroupsV2_keys ep fn (gp content).1 acc acc2 ha k hin with
            hacc | ⟨g, hgm, hkey⟩
          · exact Or.inl hacc
          · exact Or.inr ⟨fn, content, List.mem_cons_self _ _, hg, g, hgm, hkey⟩
        · exact Or.inr ⟨fn', content', List.mem_cons_of_mem _ hm, hz, g, hgm, hkey⟩

/-- C5 (amended): every key of a successful V2 parse is the concatenation
`<group name>;<file name>` for some file of the configuration and some group of
that file's parse; and distinct (file, group) pairs produce distinct composite
keys provided group names contain no semicolon (without that proviso, collisions
are possible). -/
theorem c5_group_key_structure :
    (∀ (gp : GroupParseFn) (ep : ExprParseFn) (c : RulesConfig) (m : RuleMap),
      RulesConfig.parseV2 gp ep c = .ok m →
      ∀ k ∈ m.map Prod.fst,
        ∃ fn content, (fn, content) ∈ goEntries c.Files ∧ (gp content).2 = [] ∧
          ∃ g ∈ (gp content).1, k = groupKey g.Name fn) ∧
    (∀ g₁ fn₁ g₂ fn₂ : String, ';' ∉ g₁.data → ';' ∉ g₂.data →
      groupKey g₁ fn₁ = groupKey g₂ fn₂ → g₁ = g₂ ∧ fn₁ = fn₂) := by
  constructor
  · intro gp ep c m h k hk
    rcases parseFilesV2_keys gp ep (goEntries c.Files) [] m h k hk with hin | hrest
    · simp at hin
    · exact hrest
  · exact fun g₁ fn₁ g₂ fn₂ h₁ h₂ h => groupKey_inj h₁ h₂ h

/-- Group parser instance for the C5 witness: one group named `g`, no rules. -/
def gpC5 : GroupParseFn := fun _ => ([⟨"g", []⟩], [])

/-- Witness for C5: the single key of a one-file, one-group parse originates
from that file and group, and semicolon-free keys decompose uniquely. -/
theorem c5_group_key_structure_witness :
    (∃ fn content, (fn, content) ∈ goEntries (some [("f", "x")]) ∧
      (gpC5 content).2 = [] ∧
      ∃ g ∈ (gpC5 content).1, "g;f" = groupKey g.Name fn) ∧
    ("g" = "g" ∧ "f" = "f") :=
  ⟨c5_group_key_structure.1 gpC5 epOk ⟨RuleFormatV2, some [("f", "x")]⟩
      [("g;f", [])] rfl "g;f" (by decide),
   c5_group_key_structure.2 "g" "f" "g" "f" (by decide) (by decide) rfl⟩

/-- Group parser instance for the C5 counterexample: `f1` yields a group named
`a;b` (a semicolon in the group name), `f2` a group named `a`. -/
def gpC5x : GroupParseFn := fun content =>
  if content = "f1" then ([⟨"a;b", [⟨"r1", "", "e1", 0, [], []⟩]⟩], [])
  else if content = "f2" then ([⟨"a", [⟨"r2", "", "e2", 0, [], []⟩]⟩], [])
  else ([], [])

/-- Counterexample for C5 as stated: the distinct (file, group) pairs
(`c`, `a;b`) and (`b;c`, `a`) produce the same composite key `a;b;c`, so the
second group silently overwrites the first and its rules are lost from the
successful result. -/
theorem c5_counterexample :
    ("c", "f1") ≠ (("b;c", "f2") : String × String) ∧
    groupKey "a;b" "c" = groupKey "a" "b;c" ∧
    RulesConfig.parseV2 gpC5x epOk
      ⟨RuleFormatV2, some [("c", "f1"), ("b;c", "f2")]⟩ =
      .ok [("a;b;c", [.recording "r2" "e2" []])] :=
  ⟨by decide, rfl, rfl⟩

/-- C6 (amended): in V2 parsing, a group-grammar failure is reported wrapped
with the failing file's name while an expression-parse failure is propagated
unwrapped; in V1 parsing, a statement-parse failure is likewise reported with
file-name context but an expression re-parse failure (alert or record
statement) is propagated unwrapped — both adapters share the same asymmetry.
Each scenario is pinned at the first file of the iteration order. -/
theorem c6_error_context_asymmetry :
    (∀ (gp : GroupParseFn) (ep : ExprParseFn) (c : RulesConfig)
        (fn content : String) (rest : List (String × String))
        (e : String) (es : List String),
      c.Files = some ((fn, content) :: rest) → (gp content).2 = e :: es →
      RulesConfig.parseV2 gp ep c =
        .error ("error parsing " ++ fn ++ ": " ++ e)) ∧
    (∀ (gp : GroupParseFn) (ep : ExprParseFn) (c : RulesConfig)
        (fn content : String) (rest : List (String × String))
        (g : RuleGroup) (gs : List RuleGroup) (r : RuleNode)
        (rs : List RuleNode) (m : String),
      c.Files = some ((fn, content) :: rest) → gp content = (g :: gs, []) →
      g.Rules = r :: rs → ep r.Expr = .error m →
      RulesConfig.parseV2 gp ep c = .error m) ∧
    (∀ (sp : StmtParseFn) (ep : ExprParseFn) (c : RulesConfig)
        (fn content : String) (rest : List (String × String)) (e : String),
      c.Files = some ((fn, content) :: rest) → sp content = .error e →
      RulesConfig.parseV1 sp ep c =
        .error ("error parsing " ++ fn ++ ": " ++ e)) ∧
    (∀ (sp : StmtParseFn) (ep : ExprParseFn) (c : RulesConfig)
        (fn content : String) (rest : List (String × String))
        (n et : String) (d : Int) (ls asn : LabelSet) (ss : List Stmt)
        (m : String),
      c.Files = some ((fn, content) :: rest) →
      sp content = .ok (.alertStmt n et d ls asn :: ss) → ep et = .error m →
      RulesConfig.parseV1 sp ep c = .error m) ∧
    (∀ (sp : StmtParseFn) (ep : ExprParseFn) (c : RulesConfig)
        (fn content : String) (rest : List (String × String))
        (n et : String) (ls : LabelSet) (ss : List Stmt) (m : String),
      c.Files = some ((fn, content) :: rest) →
      sp content = .ok (.recordStmt n et ls :: ss) → ep et = .error m →
      RulesConfig.parseV1 sp ep c = .error m) := by
  refine ⟨?_, ?_, ?_, ?_, ?_⟩
  · intro gp ep c fn content rest e es hc hg
    simp [RulesConfig.parseV2, goEntries, hc, parseFilesV2, hg]
  · intro gp ep c fn content rest g gs r rs m hc hgp hr he
    simp [RulesConfig.parseV2, goEntries, hc, parseFilesV2, hgp, addGroupsV2,
      convRulesV2, hr, convRuleV2, he]
  · intro sp ep c fn content rest e hc hs
    simp [RulesConfig.parseV1, goEntries, hc, parseFilesV1, hs]
  · intro sp ep c fn content rest n et d ls asn ss m hc hs he
    simp [RulesConfig.parseV1, goEntries, hc, parseFilesV1, hs, convStmtsV1, he]
  · intro sp ep c fn content rest n et ls ss m hc hs he
    simp [RulesConfig.parseV1, goEntries, hc, parseFilesV1, hs, convStmtsV1, he]

/-- Group parser instance for the C6 witness: `gbad` fails the group grammar,
`gexpr` yields one group whose single alerting rule has expression `bex`. -/
def gpC6 : GroupParseFn := fun content =>
  if content = "gbad" then ([], ["boom"])
  else if content = "gexpr" then ([⟨"g", [⟨"", "A", "bex", 0, [], []⟩]⟩], [])
  else ([], [])

/-- Expression parser instance for C6: the text `bex` fails with `oops`. -/
def epC6 : ExprParseFn := fun s => if s = "bex" then .error "oops" else .ok s

/-- Statement parser instance for C6: `sbad` fails; `salert` and `srecord`
yield one statement whose expression text is `bex`. -/
def spC6 : StmtParseFn := fun content =>
  if content = "sbad" then .error "stmterr"
  else if content = "salert" then .ok [.alertStmt "A" "bex" 0 [] []]
  else if content = "srecord" then .ok [.recordStmt "R" "bex" []]
  else .ok []

/-- Witness for C6: all five scenarios at concrete one-file configurations. -/
theorem c6_error_context_asymmetry_witness :
    RulesConfig.parseV2 gpC6 epC6 ⟨RuleFormatV2, some [("f", "gbad")]⟩ =
      .error ("error parsing " ++ "f" ++ ": " ++ "boom") ∧
    RulesConfig.parseV2 gpC6 epC6 ⟨RuleFormatV2, some [("f", "gexpr")]⟩ =
      .error "oops" ∧
    RulesConfig.parseV1 spC6 epC6 ⟨RuleFormatV1, some [("f", "sbad")]⟩ =
      .error ("error parsing " ++ "f" ++ ": " ++ "stmterr") ∧
    RulesConfig.parseV1 spC6 epC6 ⟨RuleFormatV1, some [("f", "salert")]⟩ =
      .error "oops" ∧
    RulesConfig.parseV1 spC6 epC6 ⟨RuleFormatV1, some [("f", "srecord")]⟩ =
      .error "oops" :=
  ⟨c6_error_context_asymmetry.1 gpC6 epC6 _ "f" "gbad" [] "boom" [] rfl rfl,
   c6_error_context_asymmetry.2.1 gpC6 epC6 _ "f" "gexpr" []
     ⟨"g", [⟨"", "A", "bex", 0, [], []⟩]⟩ [] ⟨"", "A", "bex", 0, [], []⟩ [] "oops"
     rfl rfl rfl rfl,
   c6_error_context_asymmetry.2.2.1 spC6 epC6 _ "f" "sbad" [] "stmterr" rfl rfl,
   c6_error_context_asymmetry.2.2.2.1 spC6 epC6 _ "f" "salert" [] "A" "bex" 0
     [] [] [] "oops" rfl rfl rfl,
   c6_error_context_asymmetry.2.2.2.2 spC6 epC6 _ "f" "srecord" [] "R" "bex"
     [] [] "oops" rfl rfl rfl⟩

/-- Counterexample for C6 as stated: in V1 parsing, an expression re-parse
failure is returned as the bare promql error `oops`, with no file-name context
added, contradicting the claim that the V1 adapter wraps both error kinds. -/
theorem c6_counterexample :
    RulesConfig.parseV1 spC6 epC6 ⟨RuleFormatV1, some [("f", "salert")]⟩ =
      .error "oops" ∧
    ("oops" : String) ≠ "error parsing f: oops" :=
  ⟨rfl, by decide⟩
